import Mathlib

/-!
Verification development for the recipe-card-generator extraction core
(`src/app.js`).  The core logic — `parseRecipe`, `extractJsonLdRecipe`,
`normalizeRecipe`, `extractHtmlRecipe` (lines 60–218) — is embedded below as
executable Lean functions over a model of JavaScript runtime values.

Modelling conventions:
* `JsVal` models the JSON/JS values the code manipulates.  JSON numbers are
  modelled as `Int` (no claim depends on non-integral numbers).
* JS property access `v[k]` throws a `TypeError` on `null`/`undefined` and is
  otherwise total; it is modelled by `getProp` returning `Except`.
  Method-call failures (calling `.replace`/`.map` on a value that lacks them)
  are likewise modelled as `Except` errors.
* A parsed document (the `DOMParser` output, an external collaborator) is
  modelled by `Doc`: the decoded payloads of its
  `script[type="application/ld+json"]` blocks in document order
  (`none` = `JSON.parse` would throw on that block), and its CSS-selector
  lookup `select`, returning the raw `textContent` of each matching element
  in document order (`querySelector` = head of that list).
* The regexes of the source are implemented directly over character lists:
  tag stripping for `/<[^>]*>/g`, whitespace collapsing for `/\s+/g`,
  sentence splitting for `/(?:\.\s+|\n+)/`.  The JS whitespace class `\s`
  is modelled by its ASCII members (the exotic Unicode members play no role
  in any claim).
-/

namespace RecipeCard

/-- Model of a JavaScript runtime value as manipulated by `app.js`. -/
inductive JsVal : Type where
  | str : String → JsVal
  | num : Int → JsVal
  | bool : Bool → JsVal
  | null : JsVal
  | undefined : JsVal
  | arr : List JsVal → JsVal
  | obj : List (String × JsVal) → JsVal

/-- Property lookup in an object literal (first binding wins; decoded JSON
objects bind each key once). Missing keys read as `undefined`. -/
def objLookup : List (String × JsVal) → String → JsVal
  | [], _ => .undefined
  | (k, v) :: rest, key => if k = key then v else objLookup rest key

/-- The value of the JS property read `v[k]` for non-`null`, non-`undefined`
`v`: object field lookup; `length` on strings and arrays; `undefined` on
(boxed) numbers and booleans. -/
def getVal : JsVal → String → JsVal
  | .obj fields, key => objLookup fields key
  | .arr l, key => if key = "length" then .num l.length else .undefined
  | .str s, key => if key = "length" then .num s.length else .undefined
  | _, _ => .undefined

/-- JS property access `v[k]`: throws a `TypeError` on `null`/`undefined`. -/
def getProp : JsVal → String → Except String JsVal
  | .null, _ => .error "TypeError"
  | .undefined, _ => .error "TypeError"
  | v, key => .ok (getVal v key)

/-- JS truthiness. -/
def truthy : JsVal → Bool
  | .str s => s ≠ ""
  | .num n => n ≠ 0
  | .bool b => b
  | .null => false
  | .undefined => false
  | .arr _ => true
  | .obj _ => true

/-- The ASCII members of the JS regex class `\s` (also used by `trim()`). -/
def jsWhitespace (c : Char) : Bool :=
  c = ' ' || c = '\t' || c = '\n' || c = '\r' || c = '\x0b' || c = '\x0c'

/-- Character-list core of JS `String.prototype.trim`. -/
def trimChars (l : List Char) : List Char :=
  (l.dropWhile jsWhitespace).rdropWhile jsWhitespace

/-- JS `s.trim()`. -/
def jsTrim (s : String) : String := ⟨trimChars s.data⟩

/-- One pass of `s.replace(/<[^>]*>/g, '')`: the second argument buffers a
pending tag opened by `<` (in reverse); at `>` the buffered tag is dropped,
while a tag left open at the end of input was never a match and is emitted
literally. -/
def stripTagsGo : List Char → Option (List Char) → List Char
  | [], none => []
  | [], some buf => buf.reverse
  | c :: rest, none =>
    if c = '<' then stripTagsGo rest (some [c]) else c :: stripTagsGo rest none
  | c :: rest, some buf =>
    if c = '>' then stripTagsGo rest none else stripTagsGo rest (some (c :: buf))

/-- JS `s.replace(/<[^>]*>/g, '')` (line 146). -/
def stripTags (s : String) : String := ⟨stripTagsGo s.data none⟩

/-- One pass of `s.replace(/\s+/g, ' ')`; the flag records whether we are
inside a whitespace run already replaced by a single space. -/
def collapseWsGo : Bool → List Char → List Char
  | _, [] => []
  | inRun, c :: rest =>
    if jsWhitespace c then
      if inRun then collapseWsGo true rest else ' ' :: collapseWsGo true rest
    else c :: collapseWsGo false rest

/-- JS `s.replace(/\s+/g, ' ')` (line 146). -/
def collapseWs (s : String) : String := ⟨collapseWsGo false s.data⟩

/-- The per-instruction clean-up of line 146:
`inst.replace(/<[^>]*>/g, '').replace(/\s+/g, ' ').trim()`. -/
def cleanString (s : String) : String := jsTrim (collapseWs (stripTags s))

/-- The clean-up map of lines 145–147 applied to one entry: `.replace` is a
string method, so a non-string entry throws a `TypeError`. -/
def cleanInstruction : JsVal → Except String String
  | .str s => .ok (cleanString s)
  | _ => .error "TypeError"

/-- Does the list start with a `\s` character? -/
def startsWithWs : List Char → Bool
  | [] => false
  | c :: _ => jsWhitespace c

/- Splitter for `s.split(/(?:\.\s+|\n+)/)` (line 123), as a character state
machine.  A separator is a period followed by at least one whitespace
character (the whitespace run is consumed greedily), or a run of newlines. -/
mutual

/-- Fragment state of the splitter: `acc` holds the current fragment in
reverse. -/
def splitRun (acc : List Char) : List Char → List (List Char)
  | [] => [acc.reverse]
  | c :: rest =>
    if c = '.' then splitDot acc rest
    else if c = '\n' then acc.reverse :: splitNl rest
    else splitRun (c :: acc) rest

/-- State after reading a `.`: a separator start iff whitespace follows,
otherwise the period was a literal fragment character. -/
def splitDot (acc : List Char) : List Char → List (List Char)
  | [] => [('.' :: acc).reverse]
  | c :: rest =>
    if jsWhitespace c then acc.reverse :: splitWs rest
    else if c = '.' then splitDot ('.' :: acc) rest
    else splitRun (c :: '.' :: acc) rest

/-- State inside the greedily-consumed whitespace of a `.`+`\s+` separator. -/
def splitWs : List Char → List (List Char)
  | [] => [[]]
  | c :: rest =>
    if jsWhitespace c then splitWs rest
    else if c = '.' then splitDot [] rest
    else if c = '\n' then [] :: splitNl rest
    else splitRun [c] rest

/-- State inside a `\n+` separator. -/
def splitNl : List Char → List (List Char)
  | [] => [[]]
  | c :: rest =>
    if c = '\n' then splitNl rest
    else if c = '.' then splitDot [] rest
    else splitRun [c] rest

end

/-- JS `s.split(/(?:\.\s+|\n+)/)` (line 123). -/
def splitInstructions (s : String) : List String :=
  (splitRun [] s.data).map (fun l => (⟨l⟩ : String))

/-- JS string conversion used by `Array.prototype.join(' ')` (line 136) on
each element: `null`/`undefined` become empty, arrays join their elements
with commas, plain objects print as `[object Object]`. -/
def jsToString : JsVal → String
  | .str s => s
  | .num n => toString n
  | .bool b => cond b "true" "false"
  | .null => ""
  | .undefined => ""
  | .arr l => String.intercalate "," (l.attach.map (fun x => jsToString x.1))
  | .obj _ => "[object Object]"
  decreasing_by
  · have h := List.sizeOf_lt_of_mem x.2
    simp only [JsVal.arr.sizeOf_spec]
    omega

/-- Left-to-right effectful map: the model of `Array.prototype.map` with a
callback that can throw (the first throw aborts the whole map). -/
def mapExcept (f : α → Except String β) : List α → Except String (List β)
  | [] => .ok []
  | x :: xs =>
    match f x with
    | .error e => .error e
    | .ok y =>
      match mapExcept f xs with
      | .error e => .error e
      | .ok ys => .ok (y :: ys)

/-- Resolution of one nested step of a `HowToSection` (lines 134–136):
`typeof step === 'string' ? step : (step.text || step.name || '')`. -/
def resolveStep (step : JsVal) : Except String JsVal :=
  match step with
  | .str _ => .ok step
  | _ =>
    match getProp step "text" with
    | .error e => .error e
    | .ok t =>
      if truthy t then .ok t
      else
        match getProp step "name" with
        | .error e => .error e
        | .ok n => .ok (if truthy n then n else .str "")

/-- Is the value the string literal `'HowToStep'` (strict equality)? -/
def isHowToStep : JsVal → Bool
  | .str s => s == "HowToStep"
  | _ => false

/-- Is the value the string literal `'HowToSection'` (strict equality)? -/
def isHowToSection : JsVal → Bool
  | .str s => s == "HowToSection"
  | _ => false

/-- The instruction-item callback of lines 126–139.  A string item is kept;
otherwise its `text`, then `name` field is used when truthy; a `HowToStep`
falls back to `text || name || ''` (both known falsy at that point); a
`HowToSection` with a truthy `itemListElement` joins its resolved steps with
single spaces — `.map` on a truthy non-array throws — and every other item
yields `''`.  Property access on a `null`/`undefined` item throws. -/
def resolveInstrItem (item : JsVal) : Except String JsVal :=
  match item with
  | .str _ => .ok item
  | _ =>
    match getProp item "text" with
    | .error e => .error e
    | .ok text =>
      if truthy text then .ok text
      else
        match getProp item "name" with
        | .error e => .error e
        | .ok nm =>
          if truthy nm then .ok nm
          else
            match getProp item "@type" with
            | .error e => .error e
            | .ok ty =>
              if isHowToStep ty then
                .ok (if truthy text then text else if truthy nm then nm else .str "")
              else if isHowToSection ty then
                match getProp item "itemListElement" with
                | .error e => .error e
                | .ok ile =>
                  if truthy ile then
                    match ile with
                    | .arr steps =>
                      match mapExcept resolveStep steps with
                      | .error e => .error e
                      | .ok parts =>
                        .ok (.str (String.intercalate " " (parts.map jsToString)))
                    | _ => .error "TypeError"
                  else .ok (.str "")
              else .ok (.str "")

/-- The filter predicate `s => s.length > 0` of line 140.  `s` is never
`null`/`undefined` here (the callback of lines 126–139 only produces strings
or truthy values), so the `TypeError` of a `length` read on `null` cannot
fire; JS `ToNumber` coercion of exotic `length` field values (non-numeric
strings, arrays) on plain objects is approximated as `false`. -/
def lengthGtZero : JsVal → Bool
  | .str s => decide (0 < s.length)
  | .arr l => decide (0 < l.length)
  | .obj fields =>
    match objLookup fields "length" with
    | .num n => decide (0 < n)
    | .bool b => b
    | _ => false
  | _ => false

/-- The canonical output record `{ title, ingredients, instructions }`
(line 149).  After the clean-up map of lines 145–147 every instruction is a
string; `title` and the ingredient entries are returned unconverted. -/
structure Recipe where
  title : JsVal
  ingredients : List JsVal
  instructions : List String

/-- `normalizeRecipe` (lines 106–150), with JS exceptions made explicit. -/
def normalizeRecipe (data : JsVal) : Except String Recipe :=
  match getProp data "name" with
  | .error e => .error e
  | .ok nm =>
    let title := if truthy nm then nm else .str "Untitled Recipe"
    match getProp data "recipeIngredient" with
    | .error e => .error e
    | .ok ri =>
      let ingredients : List JsVal :=
        if truthy ri then
          match ri with
          | .arr l => l
          | v => [v]
        else []
      match getProp data "recipeInstructions" with
      | .error e => .error e
      | .ok rins =>
        let rawInstructions : Except String (List JsVal) :=
          if truthy rins then
            match rins with
            | .str s =>
              .ok (((splitInstructions s).filter
                    (fun t => decide (0 < (jsTrim t).length))).map JsVal.str)
            | .arr items =>
              match mapExcept resolveInstrItem items with
              | .error e => .error e
              | .ok resolved => .ok (resolved.filter lengthGtZero)
            | _ => .ok []
          else .ok []
        match rawInstructions with
        | .error e => .error e
        | .ok insts =>
          match mapExcept cleanInstruction insts with
          | .error e => .error e
          | .ok cleaned =>
            .ok { title := title, ingredients := ingredients, instructions := cleaned }

/-- Is the value the string literal `'Recipe'` (strict equality)? -/
def isRecipeStr : JsVal → Bool
  | .str s => s == "Recipe"
  | _ => false

/-- `list.includes('Recipe')` on an `@type` array. -/
def hasRecipeStr : List JsVal → Bool
  | [] => false
  | .str s :: rest => s == "Recipe" || hasRecipeStr rest
  | _ :: rest => hasRecipeStr rest

/-- The Recipe-type test of lines 88–89 / 94–95 as a total predicate on
values that support property access:
`v['@type'] === 'Recipe' || (Array.isArray(v['@type']) && v['@type'].includes('Recipe'))`. -/
def isRecipeTypeB (v : JsVal) : Bool :=
  isRecipeStr (getVal v "@type") ||
    (match getVal v "@type" with
     | .arr l => hasRecipeStr l
     | _ => false)

/-- The same Recipe-type test with the `TypeError` of reading `@type` on a
`null`/`undefined` value made explicit. -/
def typeIsRecipe (v : JsVal) : Except String Bool :=
  match getProp v "@type" with
  | .error e => .error e
  | .ok ty =>
    .ok (isRecipeStr ty ||
      (match ty with
       | .arr l => hasRecipeStr l
       | _ => false))

/-- `data.find(item => item['@type'] === 'Recipe' || ...)` (lines 87–90). -/
def findRecipeItem : List JsVal → Except String (Option JsVal)
  | [] => .ok none
  | item :: rest =>
    match typeIsRecipe item with
    | .error e => .error e
    | .ok true => .ok (some item)
    | .ok false => findRecipeItem rest

/-- Lines 86–97: the handling of one decoded block value after the `@graph`
unwrap — array scan via `find`, or direct type test on a single value. -/
def processData (data : JsVal) : Except String (Option Recipe) :=
  match data with
  | .arr items =>
    match findRecipeItem items with
    | .error e => .error e
    | .ok (some r) =>
      match normalizeRecipe r with
      | .error e => .error e
      | .ok out => .ok (some out)
    | .ok none => .ok none
  | _ =>
    match typeIsRecipe data with
    | .error e => .error e
    | .ok true =>
      match normalizeRecipe data with
      | .error e => .error e
      | .ok out => .ok (some out)
    | .ok false => .ok none

/-- The loop body of lines 77–100 for one script block: `JSON.parse` failure
is a thrown `SyntaxError`; a decoded value with a truthy `@graph` field is
replaced by that field's value before inspection. -/
def processBlock : Option JsVal → Except String (Option Recipe)
  | none => .error "SyntaxError"
  | some parsed =>
    match getProp parsed "@graph" with
    | .error e => .error e
    | .ok g => processData (if truthy g then g else parsed)

/-- `extractJsonLdRecipe` (lines 73–104): the blocks are scanned in document
order; the `try`/`catch` turns any exception from a block — bad JSON or a
failure while normalizing — into a skip to the next block. -/
def extractJsonLdRecipe : List (Option JsVal) → Option Recipe
  | [] => none
  | b :: rest =>
    match processBlock b with
    | .ok (some r) => some r
    | _ => extractJsonLdRecipe rest

/-- A parsed document (the output of the external `DOMParser` collaborator):
its JSON-LD block payloads in document order and its selector lookup. -/
structure Doc where
  ldJsonBlocks : List (Option JsVal)
  select : String → List String

/-- The title selector priority list (lines 159–167). -/
def titleSelectors : List String :=
  ["h1.recipe-title", "h1.entry-title", ".recipe-name", "h1[itemprop=\"name\"]",
   ".tasty-recipes-title", "h2.wprm-recipe-name", "h1"]

/-- The ingredient selector priority list (lines 178–185). -/
def ingredientSelectors : List String :=
  ["[itemprop=\"recipeIngredient\"]", ".ingredient", ".ingredients li",
   ".recipe-ingredients li", ".wprm-recipe-ingredient", ".tasty-recipes-ingredients li"]

/-- The instruction selector priority list (lines 196–203). -/
def instructionSelectors : List String :=
  ["[itemprop=\"recipeInstructions\"]", ".instructions li", ".recipe-instructions li",
   ".directions li", ".wprm-recipe-instruction", ".tasty-recipes-instructions li"]

/-- The title loop of lines 169–175: take the first selector whose *first*
matching element (`querySelector`) has non-empty trimmed text; a selector
that matches only an element with blank text does not stop the loop. -/
def findTitle (doc : Doc) : List String → String
  | [] => ""
  | sel :: rest =>
    match (doc.select sel).head? with
    | some txt => if jsTrim txt ≠ "" then jsTrim txt else findTitle doc rest
    | none => findTitle doc rest

/-- The list loops of lines 187–193 and 205–211: take the first selector with
at least one match (`querySelectorAll`) and trim every match's text. -/
def findList (doc : Doc) : List String → List String
  | [] => []
  | sel :: rest =>
    if 0 < (doc.select sel).length then (doc.select sel).map jsTrim
    else findList doc rest

/-- `extractHtmlRecipe` (lines 152–218): the result-policy test of line 213
(`title && (ingredients.length > 0 || instructions.length > 0)`) applied to
the three per-field scans. -/
def extractHtmlRecipe (doc : Doc) : Option Recipe :=
  if findTitle doc titleSelectors ≠ "" ∧
      (0 < (findList doc ingredientSelectors).length ∨
        0 < (findList doc instructionSelectors).length) then
    some { title := .str (findTitle doc titleSelectors),
           ingredients := (findList doc ingredientSelectors).map JsVal.str,
           instructions := findList doc instructionSelectors }
  else none

/-- `parseRecipe` (lines 60–71): the external document parser has already
produced `doc`; structured data first, heuristic fallback second.  (The
`url` argument of the source is unused by the algorithm and omitted.) -/
def parseRecipe (doc : Doc) : Option Recipe :=
  match extractJsonLdRecipe doc.ldJsonBlocks with
  | some r => some r
  | none => extractHtmlRecipe doc

/-! ## Concrete documents and auxiliary predicates used by the claims -/

/-- A record whose only instruction item is an object with whitespace-only
`text`. -/
def c10data : JsVal := .obj [("recipeInstructions", .arr [.obj [("text", .str " ")]])]

/-- A value that is a string or falsy. -/
def StrOrFalsy (v : JsVal) : Prop := (∃ s, v = .str s) ∨ truthy v = false

/-- Shapes of an instruction item that the callback of lines 126–139 resolves
to a plain string without throwing: strings, and non-null non-undefined
items whose `text` and `name` properties are strings or falsy and whose
`itemListElement` property, when truthy, is a list without null/undefined
entries. -/
def SafeInstrItem (item : JsVal) : Prop :=
  (∃ s, item = .str s) ∨
  (item ≠ .null ∧ item ≠ .undefined ∧
    StrOrFalsy (getVal item "text") ∧ StrOrFalsy (getVal item "name") ∧
    (truthy (getVal item "itemListElement") = true →
      ∃ steps, getVal item "itemListElement" = .arr steps ∧
        ∀ st ∈ steps, st ≠ .null ∧ st ≠ .undefined))

/-- A record with malformed shapes everywhere that are still safe: a numeric
`name`, a string `recipeIngredient`, and a numeric `recipeInstructions`. -/
def c2wData : List (String × JsVal) :=
  [("name", .num 5), ("recipeIngredient", .str "x"), ("recipeInstructions", .num 7)]

/-- A concrete well-formed Recipe block: a name, two ingredients, and two
string instructions, the first carrying markup and doubled spaces. -/
def c1wBlock : JsVal :=
  .obj [("@type", .str "Recipe"), ("name", .str "Pancakes"),
        ("recipeIngredient", .arr [.str "2 eggs", .str "1 cup flour"]),
        ("recipeInstructions", .arr [.str "<p>Mix  well.</p>", .str "Bake."])]

/-- A document holding only `c1wBlock`. -/
def c1wDoc : Doc := { ldJsonBlocks := [some c1wBlock], select := fun _ => [] }

/-- A valid Recipe block whose `recipeInstructions` list of strings contains
an empty string. -/
def c1cxBlock : JsVal :=
  .obj [("@type", .str "Recipe"), ("name", .str "X"),
        ("recipeIngredient", .arr []),
        ("recipeInstructions", .arr [.str "", .str "Mix well"])]

/-- A document holding only `c1cxBlock`. -/
def c1cxDoc : Doc := { ldJsonBlocks := [some c1cxBlock], select := fun _ => [] }

/-- A document whose first title selector matches one element with blank
text, whose second title selector matches an element with text `Cake`, and
which has one ingredient element. -/
def c7doc : Doc :=
  { ldJsonBlocks := [],
    select := fun s =>
      if s = "h1.recipe-title" then ["   "]
      else if s = "h1.entry-title" then [" Cake "]
      else if s = "[itemprop=\"recipeIngredient\"]" then ["1 egg"]
      else [] }

/-- A title selector that does not stop the loop of lines 169–175: it either
matches nothing, or its first match (`querySelector`) has blank trimmed
text. -/
def titleMiss (doc : Doc) (sel : String) : Prop :=
  ∀ txt, (doc.select sel).head? = some txt → jsTrim txt = ""

/-- A document where only the second-priority ingredient selector matches. -/
def c7wDoc : Doc :=
  { ldJsonBlocks := [],
    select := fun s => if s = ".ingredient" then [" 1 egg "] else [] }

/-- A fragment of text free of split boundaries for the regex
`(?:\\.\\s+|\\n+)`: it contains no newline and no period followed by a
whitespace character. -/
def noBoundary : List Char → Bool
  | [] => true
  | c :: rest => !(c = '\n') && !(c = '.' && startsWithWs rest) && noBoundary rest

/-- A record whose instructions are one string of two sentences. -/
def c8wData : List (String × JsVal) :=
  [("name", .str "Tea"), ("recipeInstructions", .str "Boil water. Steep the leaves")]

/-- A `RawStructuredRecord` whose `recipeInstructions` list contains `null`. -/
def c2data : JsVal := .obj [("recipeInstructions", .arr [.null])]

/-! ## General lemmas about the structured-data scan -/

/-- Reading `@type` on a value that supports property access never throws and
agrees with the total predicate `isRecipeTypeB`. -/
theorem typeIsRecipe_ok (v : JsVal) (h1 : v ≠ .null) (h2 : v ≠ .undefined) :
    typeIsRecipe v = .ok (isRecipeTypeB v) := by
  cases v <;> first | rfl | exact absurd rfl h1 | exact absurd rfl h2

/-- `includes('Recipe')` finds exactly the string element `"Recipe"`. -/
theorem hasRecipeStr_iff (l : List JsVal) :
    hasRecipeStr l = true ↔ JsVal.str "Recipe" ∈ l := by
  induction l with
  | nil => simp [hasRecipeStr]
  | cons v rest ih =>
    cases v <;> simp [hasRecipeStr, ih, List.mem_cons]
    all_goals tauto

/-- Blocks whose processing does not produce a recipe — decode failures, any
other exception, or no Recipe-typed record — are skipped by the scan loop. -/
theorem extractJsonLd_append_no_match (pre rest : List (Option JsVal))
    (h : ∀ b ∈ pre, ∀ r, processBlock b ≠ .ok (some r)) :
    extractJsonLdRecipe (pre ++ rest) = extractJsonLdRecipe rest := by
  induction pre with
  | nil => rfl
  | cons p pre ih =>
    rw [List.cons_append]
    show (match processBlock p with
      | .ok (some r) => some r
      | _ => extractJsonLdRecipe (pre ++ rest)) = extractJsonLdRecipe rest
    match hp : processBlock p with
    | .ok (some r) => exact absurd hp (h p (List.mem_cons_self p _) r)
    | .ok none => exact ih fun b hb => h b (List.mem_cons_of_mem p hb)
    | .error e => exact ih fun b hb => h b (List.mem_cons_of_mem p hb)

/-- A block whose processing throws is skipped wherever it sits in the scan. -/
theorem extractJsonLd_skip_error (pre post : List (Option JsVal))
    (b : Option JsVal) (e : String) (hb : processBlock b = .error e) :
    extractJsonLdRecipe (pre ++ b :: post) = extractJsonLdRecipe (pre ++ post) := by
  induction pre with
  | nil =>
    rw [List.nil_append, List.nil_append]
    show (match processBlock b with
      | .ok (some r) => some r
      | _ => extractJsonLdRecipe post) = extractJsonLdRecipe post
    rw [hb]
  | cons p pre ih =>
    rw [List.cons_append, List.cons_append]
    show (match processBlock p with
      | .ok (some r) => some r
      | _ => extractJsonLdRecipe (pre ++ b :: post)) =
      (match processBlock p with
      | .ok (some r) => some r
      | _ => extractJsonLdRecipe (pre ++ post))
    match processBlock p with
    | .ok (some r) => rfl
    | .ok none => exact ih
    | .error e' => exact ih

/-! ## Claim C3 -/

/-- Claim C3 (confirmed): the fallback pipeline.  A structured-data result is
returned as-is; otherwise the heuristic extractor decides, and it produces a
Recipe exactly when its title is non-empty and at least one of its two lists
is non-empty — in every remaining case the result is `none`. -/
theorem C3_fallback_pipeline (doc : Doc) :
    (∀ r, extractJsonLdRecipe doc.ldJsonBlocks = some r → parseRecipe doc = some r) ∧
    (extractJsonLdRecipe doc.ldJsonBlocks = none → parseRecipe doc = extractHtmlRecipe doc) ∧
    (∀ r, extractHtmlRecipe doc = some r →
        r.title ≠ .str "" ∧ (r.ingredients ≠ [] ∨ r.instructions ≠ [])) ∧
    (extractHtmlRecipe doc = none ↔
        (findTitle doc titleSelectors = "" ∨
         (findList doc ingredientSelectors = [] ∧ findList doc instructionSelectors = []))) := by
  refine ⟨fun r h => ?_, fun h => ?_, fun r h => ?_, ?_⟩
  · unfold parseRecipe
    rw [h]
  · unfold parseRecipe
    rw [h]
  · unfold extractHtmlRecipe at h
    split at h
    next hc =>
      cases h
      refine ⟨by simpa using hc.1, ?_⟩
      rcases hc.2 with h1 | h1
      · left
        have hp : 0 < ((findList doc ingredientSelectors).map JsVal.str).length := by
          simpa using h1
        intro hnil
        dsimp only at hnil
        rw [hnil] at hp
        simp at hp
      · right
        intro hnil
        dsimp only at hnil
        rw [hnil] at h1
        simp at h1
    next => cases h
  · unfold extractHtmlRecipe
    split
    next hc =>
      simp only [reduceCtorEq, false_iff]
      intro hcon
      rcases hc with ⟨ht, hlen⟩
      rcases hcon with h1 | ⟨h2, h3⟩
      · exact ht h1
      · rcases hlen with hl | hl
        · rw [h2] at hl
          simp at hl
        · rw [h3] at hl
          simp at hl
    next hc =>
      simp only [true_iff]
      by_cases ht : findTitle doc titleSelectors = ""
      · exact Or.inl ht
      · have hnot : ¬(0 < (findList doc ingredientSelectors).length ∨
            0 < (findList doc instructionSelectors).length) := fun hor => hc ⟨ht, hor⟩
        push_neg at hnot
        refine Or.inr ⟨?_, ?_⟩
        · have h0 := hnot.1
          rcases hl : findList doc ingredientSelectors with _ | ⟨a, l⟩
          · rfl
          · rw [hl] at h0
            simp at h0
        · have h0 := hnot.2
          rcases hl : findList doc instructionSelectors with _ | ⟨a, l⟩
          · rfl
          · rw [hl] at h0
            simp at h0

/-- Witness for C3: on a document with no structured data the pipeline hands
over to the heuristic extractor. -/
theorem C3_fallback_pipeline_witness :
    parseRecipe { ldJsonBlocks := [], select := fun _ => [] } =
      extractHtmlRecipe { ldJsonBlocks := [], select := fun _ => [] } :=
  (C3_fallback_pipeline _).2.1 rfl

/-! ## Claim C5 -/

/-- Claim C5 (confirmed): a block whose payload fails to decode (a thrown
`SyntaxError` in `JSON.parse`) is skipped without aborting the scan, and a
document with one unparsable block followed by a valid Recipe-typed block
extracts successfully from the second block. -/
theorem C5_bad_block_skipped :
    (∀ rest, extractJsonLdRecipe (none :: rest) = extractJsonLdRecipe rest) ∧
    (∀ (doc : Doc) (v : JsVal) (r : Recipe),
        doc.ldJsonBlocks = [none, some v] →
        processBlock (some v) = .ok (some r) →
        parseRecipe doc = some r) := by
  constructor
  · intro rest
    rfl
  · intro doc v r hdoc hv
    unfold parseRecipe
    rw [hdoc]
    show (match (match processBlock (some v) with
        | .ok (some r) => some r
        | _ => extractJsonLdRecipe []) with
      | some r => some r
      | none => extractHtmlRecipe doc) = some r
    rw [hv]

/-- Witness for C5: a malformed block followed by a minimal Recipe block. -/
theorem C5_bad_block_skipped_witness :
    parseRecipe { ldJsonBlocks := [none, some (.obj [("@type", .str "Recipe")])],
                  select := fun _ => [] } =
      some { title := .str "Untitled Recipe", ingredients := [], instructions := [] } :=
  C5_bad_block_skipped.2 _ _ _ rfl rfl

/-! ## Claim C6 -/

/-- Claim C6 (confirmed): `parseRecipe` never raises.  In the embedding every
JS exception is an explicit `Except` error; `parseRecipe` returns a plain
`Option Recipe` — total by construction — because the `try`/`catch` of lines
77–100 absorbs every per-block exception locally: a block whose processing
throws is simply dropped from the scan, and the heuristic path contains no
throwing operation. -/
theorem C6_never_raises :
    (∀ doc : Doc, parseRecipe doc = none ∨ ∃ r, parseRecipe doc = some r) ∧
    (∀ (doc : Doc) (pre post : List (Option JsVal)) (b : Option JsVal) (e : String),
        doc.ldJsonBlocks = pre ++ b :: post →
        processBlock b = .error e →
        parseRecipe doc = parseRecipe { ldJsonBlocks := pre ++ post, select := doc.select }) := by
  constructor
  · intro doc
    cases h : parseRecipe doc
    · exact Or.inl rfl
    · exact Or.inr ⟨_, rfl⟩
  · intro doc pre post b e hdoc hb
    obtain ⟨blocks, sel⟩ := doc
    cases hdoc
    show (match extractJsonLdRecipe (pre ++ b :: post) with
        | some r => some r
        | none => extractHtmlRecipe ⟨pre ++ b :: post, sel⟩) =
      (match extractJsonLdRecipe (pre ++ post) with
        | some r => some r
        | none => extractHtmlRecipe ⟨pre ++ post, sel⟩)
    rw [extractJsonLd_skip_error pre post b e hb]
    match extractJsonLdRecipe (pre ++ post) with
    | some r => rfl
    | none => rfl

/-- Witness for C6: dropping a throwing block from a concrete document. -/
theorem C6_never_raises_witness :
    parseRecipe { ldJsonBlocks := [some .null], select := fun _ => [] } =
      parseRecipe { ldJsonBlocks := [], select := fun _ => [] } :=
  C6_never_raises.2 _ [] [] (some .null) "TypeError" rfl rfl

/-! ## Claim C4 -/

/-- Claim C4 (confirmed): block-value selection.  (1) A decoded object with a
`@graph` wrapper holding an item list is unwrapped to that list before type
inspection.  (2) On a list, the record handed to normalization is the
*first* item whose declared type is Recipe — no scoring.  (3) The type test
accepts a single `"Recipe"` value or a list of values containing
`"Recipe"`.  (4) Across blocks the first block that yields a recipe wins,
and (5) a block that yields none is skipped in favour of later blocks. -/
theorem C4_first_match_selection :
    (∀ (fields : List (String × JsVal)) (g : List JsVal),
        objLookup fields "@graph" = .arr g →
        processBlock (some (.obj fields)) = processData (.arr g)) ∧
    (∀ items : List JsVal, (∀ it ∈ items, it ≠ .null ∧ it ≠ .undefined) →
        findRecipeItem items = .ok (items.find? isRecipeTypeB)) ∧
    (∀ v : JsVal, isRecipeTypeB v = true ↔
        (getVal v "@type" = .str "Recipe" ∨
          ∃ l, getVal v "@type" = .arr l ∧ JsVal.str "Recipe" ∈ l)) ∧
    (∀ (b : Option JsVal) (rest : List (Option JsVal)) (r : Recipe),
        processBlock b = .ok (some r) → extractJsonLdRecipe (b :: rest) = some r) ∧
    (∀ (b : Option JsVal) (rest : List (Option JsVal)),
        (∀ r, processBlock b ≠ .ok (some r)) →
        extractJsonLdRecipe (b :: rest) = extractJsonLdRecipe rest) := by
  refine ⟨fun fields g hg => ?_, fun items h => ?_, fun v => ?_,
    fun b rest r hb => ?_, fun b rest hb => ?_⟩
  · show (match getProp (.obj fields) "@graph" with
      | .error e => .error e
      | .ok gv => processData (if truthy gv then gv else .obj fields)) = processData (.arr g)
    show processData (if truthy (objLookup fields "@graph") then objLookup fields "@graph"
        else .obj fields) = processData (.arr g)
    rw [hg]
    rfl
  · induction items with
    | nil => rfl
    | cons it rest ih =>
      obtain ⟨h1, h2⟩ := h it (List.mem_cons_self it rest)
      show (match typeIsRecipe it with
        | .error e => Except.error e
        | .ok true => Except.ok (some it)
        | .ok false => findRecipeItem rest) = .ok ((it :: rest).find? isRecipeTypeB)
      rw [typeIsRecipe_ok it h1 h2, List.find?_cons]
      cases hr : isRecipeTypeB it
      · exact ih fun x hx => h x (List.mem_cons_of_mem it hx)
      · rfl
  · unfold isRecipeTypeB
    cases hty : getVal v "@type" <;> simp [isRecipeStr, hasRecipeStr_iff]
  · show (match processBlock b with
      | .ok (some r) => some r
      | _ => extractJsonLdRecipe rest) = some r
    rw [hb]
  · show (match processBlock b with
      | .ok (some r) => some r
      | _ => extractJsonLdRecipe rest) = extractJsonLdRecipe rest
    match hp : processBlock b with
    | .ok (some r) => exact absurd hp (hb r)
    | .ok none => rfl
    | .error e => rfl

/-- Witness for C4: the `@graph` wrapper of a concrete block is unwrapped,
and the first matching item of a two-Recipe list is the one normalized. -/
theorem C4_first_match_selection_witness :
    processBlock (some (.obj [("@graph", .arr [.obj [("@type", .str "Recipe")]])])) =
      processData (.arr [.obj [("@type", .str "Recipe")]]) ∧
    findRecipeItem [JsVal.obj [("@type", .str "Recipe"), ("name", .str "first")],
        JsVal.obj [("@type", .str "Recipe"), ("name", .str "second")]] =
      .ok (some (JsVal.obj [("@type", .str "Recipe"), ("name", .str "first")])) :=
  ⟨C4_first_match_selection.1 _ _ rfl,
   by
    rw [C4_first_match_selection.2.1 _ (by simp)]
    rfl⟩

/-! ## Claim C10 -/

/-- Claim C10 (implicit, confirmed): the empty-item filter of line 140 is
applied to the raw resolved values *before* the tag-stripping / whitespace
collapsing / trimming pass of lines 145–147, so an item whose `text` is
whitespace-only survives the filter and is then cleaned down to an empty
string that remains in the returned instruction list. -/
theorem C10_filter_before_cleanup :
    normalizeRecipe c10data =
      .ok { title := .str "Untitled Recipe", ingredients := [], instructions := [""] } := rfl

/-! ## Claim C9 -/

/-- Claim C9 (confirmed): extraction is a deterministic pure function of the
document.  The embedded `parseRecipe` reads nothing but its argument (the
source functions touch only locals and the constant selector lists), so any
two documents with the same block payloads and the same selector results
extract to identical Recipe values; in particular two calls on one document
agree. -/
theorem C9_parseRecipe_deterministic (d₁ d₂ : Doc)
    (hb : d₁.ldJsonBlocks = d₂.ldJsonBlocks) (hs : d₁.select = d₂.select) :
    parseRecipe d₁ = parseRecipe d₂ := by
  cases d₁
  cases d₂
  cases hb
  cases hs
  rfl

/-- Witness for C9 at a concrete document. -/
theorem C9_parseRecipe_deterministic_witness :
    parseRecipe { ldJsonBlocks := [none], select := fun _ => [] } =
      parseRecipe { ldJsonBlocks := [none], select := fun _ => [] } :=
  C9_parseRecipe_deterministic _ _ rfl rfl

/-! ## Lemmas about the normalizer on well-formed records -/

/-- A string is non-empty iff its length is positive. -/
theorem str_length_pos_iff (s : String) : 0 < s.length ↔ s ≠ "" := by
  obtain ⟨l⟩ := s
  show 0 < l.length ↔ (⟨l⟩ : String) ≠ ⟨[]⟩
  constructor
  · intro h heq
    injection heq with hd
    subst hd
    simp at h
  · intro h
    cases l
    · exact absurd rfl h
    · simp

/-- String items pass through the instruction-item callback unchanged. -/
theorem mapExcept_resolve_str (strs : List String) :
    mapExcept resolveInstrItem (strs.map JsVal.str) = .ok (strs.map JsVal.str) := by
  induction strs with
  | nil => rfl
  | cons s rest ih => simp only [List.map_cons, mapExcept, resolveInstrItem, ih]

/-- On string entries, the `s.length > 0` filter of line 140 keeps exactly
the non-empty strings. -/
theorem filter_lengthGtZero_map_str (strs : List String) :
    (strs.map JsVal.str).filter lengthGtZero =
      (strs.filter (fun s => s ≠ "")).map JsVal.str := by
  induction strs with
  | nil => rfl
  | cons s rest ih =>
    simp only [List.map_cons, List.filter_cons]
    have hs : lengthGtZero (.str s) = decide (s ≠ "") := by
      simp only [lengthGtZero, decide_eq_decide]
      exact str_length_pos_iff s
    rw [hs]
    cases hd : decide (s ≠ "") <;> simp [ih]

/-- The clean-up map of lines 145–147 on a list of string entries. -/
theorem mapExcept_clean_str (ts : List String) :
    mapExcept cleanInstruction (ts.map JsVal.str) = .ok (ts.map cleanString) := by
  induction ts with
  | nil => rfl
  | cons t rest ih => simp only [List.map_cons, mapExcept, cleanInstruction, ih]

/-- `normalizeRecipe` on a record with a non-empty string `name`, a list
`recipeIngredient` and a list-of-strings `recipeInstructions`. -/
theorem normalizeRecipe_wellFormed (fields : List (String × JsVal))
    (n : String) (ings : List JsVal) (strs : List String)
    (hname : objLookup fields "name" = .str n) (hn : n ≠ "")
    (hing : objLookup fields "recipeIngredient" = .arr ings)
    (hins : objLookup fields "recipeInstructions" = .arr (strs.map JsVal.str)) :
    normalizeRecipe (.obj fields) =
      .ok { title := .str n, ingredients := ings,
            instructions := (strs.filter (fun s => s ≠ "")).map cleanString } := by
  have htn : truthy (JsVal.str n) = true := by simp [truthy, hn]
  have hgp : ∀ k, getProp (JsVal.obj fields) k = .ok (objLookup fields k) := fun _ => rfl
  unfold normalizeRecipe
  rw [hgp, hgp, hgp, hname, hing, hins]
  simp only [htn, truthy, mapExcept_resolve_str, filter_lengthGtZero_map_str,
    mapExcept_clean_str, if_true]
  simp [hn]

/-- `processBlock` on a decoded object with a falsy `@graph`, `@type` equal
to `"Recipe"`, and a normalization that succeeds. -/
theorem processBlock_direct (fields : List (String × JsVal)) (r : Recipe)
    (hgraph : truthy (objLookup fields "@graph") = false)
    (hty : objLookup fields "@type" = .str "Recipe")
    (hnorm : normalizeRecipe (.obj fields) = .ok r) :
    processBlock (some (.obj fields)) = .ok (some r) := by
  show (match getProp (.obj fields) "@graph" with
    | .error e => Except.error e
    | .ok g => processData (if truthy g then g else .obj fields)) = .ok (some r)
  show processData (if truthy (objLookup fields "@graph") then objLookup fields "@graph"
    else .obj fields) = .ok (some r)
  rw [hgraph]
  show (match typeIsRecipe (.obj fields) with
    | .error e => Except.error e
    | .ok true =>
      match normalizeRecipe (.obj fields) with
      | .error e => Except.error e
      | .ok out => Except.ok (some out)
    | .ok false => Except.ok none) = .ok (some r)
  rw [typeIsRecipe_ok _ (by simp) (by simp)]
  have hrt : isRecipeTypeB (.obj fields) = true := by
    simp [isRecipeTypeB, getVal, hty, isRecipeStr]
  rw [hrt, hnorm]

/-! ## Claim C2 -/

/-- An effectful map succeeds when its callback succeeds on every element. -/
theorem mapExcept_ok_of_all {α β : Type} (f : α → Except String β) (l : List α)
    (h : ∀ x ∈ l, ∃ v, f x = .ok v) : ∃ vs, mapExcept f l = .ok vs := by
  induction l with
  | nil => exact ⟨[], rfl⟩
  | cons x xs ih =>
    obtain ⟨v, hv⟩ := h x (List.mem_cons_self x xs)
    obtain ⟨vs, hvs⟩ := ih fun y hy => h y (List.mem_cons_of_mem x hy)
    exact ⟨v :: vs, by simp only [mapExcept, hv, hvs]⟩

/-- A nested section step resolves without throwing whenever it is not
`null`/`undefined`. -/
theorem resolveStep_ok (st : JsVal) (h1 : st ≠ .null) (h2 : st ≠ .undefined) :
    ∃ v, resolveStep st = .ok v := by
  cases st
  case null => exact absurd rfl h1
  case undefined => exact absurd rfl h2
  case str s => exact ⟨.str s, rfl⟩
  case num n => exact ⟨_, rfl⟩
  case bool b => exact ⟨_, rfl⟩
  case arr l => exact ⟨_, rfl⟩
  case obj fields =>
    show ∃ v, (if truthy (objLookup fields "text") = true
        then Except.ok (objLookup fields "text")
        else .ok (if truthy (objLookup fields "name") then objLookup fields "name"
          else .str "")) = .ok v
    split
    · exact ⟨_, rfl⟩
    · exact ⟨_, rfl⟩

/-- A safe instruction item resolves to a string without throwing. -/
theorem resolveInstrItem_safe (item : JsVal) (h : SafeInstrItem item) :
    ∃ s, resolveInstrItem item = .ok (.str s) := by
  rcases h with ⟨s, rfl⟩ | ⟨h1, h2, htext, hnm, hile⟩
  · exact ⟨s, rfl⟩
  · cases item
    case null => exact absurd rfl h1
    case undefined => exact absurd rfl h2
    case str s => exact ⟨s, rfl⟩
    case num n => exact ⟨"", rfl⟩
    case bool b => exact ⟨"", rfl⟩
    case arr l => exact ⟨"", rfl⟩
    case obj fields =>
      simp only [getVal] at htext hnm hile
      show ∃ s, (if truthy (objLookup fields "text") = true
          then Except.ok (objLookup fields "text")
          else if truthy (objLookup fields "name") = true
          then Except.ok (objLookup fields "name")
          else if isHowToStep (objLookup fields "@type") = true then
            Except.ok (if truthy (objLookup fields "text") then objLookup fields "text"
              else if truthy (objLookup fields "name") then objLookup fields "name"
              else .str "")
          else if isHowToSection (objLookup fields "@type") = true then
            (if truthy (objLookup fields "itemListElement") = true then
              match objLookup fields "itemListElement" with
              | .arr steps =>
                match mapExcept resolveStep steps with
                | .error e => Except.error e
                | .ok parts => Except.ok (.str (String.intercalate " " (parts.map jsToString)))
              | _ => Except.error "TypeError"
            else Except.ok (.str ""))
          else Except.ok (.str "")) = .ok (.str s)
      cases htr : truthy (objLookup fields "text") with
      | true =>
        rcases htext with ⟨s', hs'⟩ | hfal
        · exact ⟨s', by simp [htr, hs']⟩
        · rw [htr] at hfal
          cases hfal
      | false =>
        cases hnr : truthy (objLookup fields "name") with
        | true =>
          rcases hnm with ⟨s', hs'⟩ | hfal
          · exact ⟨s', by simp [htr, hnr, hs']⟩
          · rw [hnr] at hfal
            cases hfal
        | false =>
          simp only [htr, hnr, if_false, Bool.false_eq_true]
          split
          · exact ⟨"", by simp [htr, hnr]⟩
          · split
            · cases hit : truthy (objLookup fields "itemListElement") with
              | false => exact ⟨"", by simp [hit]⟩
              | true =>
                obtain ⟨steps, hsteps, hall⟩ := hile hit
                obtain ⟨parts, hparts⟩ := mapExcept_ok_of_all resolveStep steps
                  fun st hst => resolveStep_ok st (hall st hst).1 (hall st hst).2
                refine ⟨String.intercalate " " (parts.map jsToString), ?_⟩
                rw [if_pos rfl, hsteps]
                simp only [hparts]
            · exact ⟨"", rfl⟩

/-- A list of safe items resolves to a list of strings. -/
theorem mapExcept_resolve_safe (items : List JsVal)
    (h : ∀ item ∈ items, SafeInstrItem item) :
    ∃ ss : List String, mapExcept resolveInstrItem items = .ok (ss.map JsVal.str) := by
  induction items with
  | nil => exact ⟨[], rfl⟩
  | cons it rest ih =>
    obtain ⟨s, hs⟩ := resolveInstrItem_safe it (h it (List.mem_cons_self it rest))
    obtain ⟨ss, hss⟩ := ih fun x hx => h x (List.mem_cons_of_mem it hx)
    exact ⟨s :: ss, by simp only [mapExcept, hs, hss, List.map_cons]⟩

/-- Claim C2 as amended (corrected): the Normalizer is total — substituting
defaults for missing or shape-mismatched fields — on every
`RawStructuredRecord` whose `recipeInstructions`, *when it is a list*,
contains only safe items (see `SafeInstrItem`); in particular, for any
shapes whatsoever of `name` and `recipeIngredient` and for any non-list
`recipeInstructions`.  (Unrestricted totality is refuted by the
counterexample: a `null` list item makes the normalizer throw.) -/
theorem C2_amended_normalizer_total (fields : List (String × JsVal))
    (hsafe : ∀ items, objLookup fields "recipeInstructions" = .arr items →
      ∀ item ∈ items, SafeInstrItem item) :
    ∃ r, normalizeRecipe (.obj fields) = .ok r := by
  have hgp : ∀ k, getProp (JsVal.obj fields) k = .ok (objLookup fields k) := fun _ => rfl
  unfold normalizeRecipe
  rw [hgp, hgp, hgp]
  dsimp only
  cases htr : truthy (objLookup fields "recipeInstructions") with
  | false => exact ⟨_, rfl⟩
  | true =>
    cases hsh : objLookup fields "recipeInstructions" with
    | str s =>
      simp only [eq_self_iff_true, if_true]
      rw [mapExcept_clean_str]
      exact ⟨_, rfl⟩
    | arr items =>
      obtain ⟨ss, hss⟩ := mapExcept_resolve_safe items (hsafe items hsh)
      simp only [eq_self_iff_true, if_true]
      rw [hss]
      simp only [filter_lengthGtZero_map_str, mapExcept_clean_str]
      exact ⟨_, rfl⟩
    | num n => exact ⟨_, rfl⟩
    | bool b => exact ⟨_, rfl⟩
    | null => exact ⟨_, rfl⟩
    | undefined => exact ⟨_, rfl⟩
    | obj f2 => exact ⟨_, rfl⟩

/-- Witness for C2 (amended) at a concrete shape-mismatched record. -/
theorem C2_amended_normalizer_total_witness :
    ∃ r, normalizeRecipe (.obj c2wData) = .ok r :=
  C2_amended_normalizer_total c2wData (fun items h => by cases h)

/-! ## Claim C2, counterexample -/

/-- Counterexample to claim C2 as stated: `normalizeRecipe` is *not* total on
arbitrary `RawStructuredRecord`s — a `null` item in a list-shaped
`recipeInstructions` makes the callback of line 127 read `item.text` on
`null`, which throws a `TypeError` instead of substituting a default. -/
theorem C2_counterexample : normalizeRecipe c2data = .error "TypeError" := rfl

/-! ## Claim C1 -/

/-- Claim C1 as amended (corrected): for a document whose first usable
structured-data block is a Recipe-typed record with a non-empty string
`name`, a `recipeIngredient` list and a `recipeInstructions` list of
strings, `parseRecipe` returns the title `name`, the ingredient list
unchanged and in order, and the instructions equal to the *non-empty*
strings of the `recipeInstructions` list, in order, each with markup tags
stripped, whitespace collapsed and trimmed.  (The claim as frozen omits the
dropping of empty-string entries by the filter of line 140 — see the
counterexample.) -/
theorem C1_amended_structured_extraction
    (doc : Doc) (pre post : List (Option JsVal)) (fields : List (String × JsVal))
    (n : String) (ings : List JsVal) (strs : List String)
    (hdoc : doc.ldJsonBlocks = pre ++ some (.obj fields) :: post)
    (hpre : ∀ b ∈ pre, ∀ r, processBlock b ≠ .ok (some r))
    (hgraph : truthy (objLookup fields "@graph") = false)
    (hty : objLookup fields "@type" = .str "Recipe")
    (hname : objLookup fields "name" = .str n) (hn : n ≠ "")
    (hing : objLookup fields "recipeIngredient" = .arr ings)
    (hins : objLookup fields "recipeInstructions" = .arr (strs.map JsVal.str)) :
    parseRecipe doc =
      some { title := .str n, ingredients := ings,
             instructions := (strs.filter (fun s => s ≠ "")).map cleanString } := by
  have hnorm := normalizeRecipe_wellFormed fields n ings strs hname hn hing hins
  have hblock := processBlock_direct fields _ hgraph hty hnorm
  unfold parseRecipe
  rw [hdoc, extractJsonLd_append_no_match pre _ hpre]
  show (match (match processBlock (some (.obj fields)) with
      | .ok (some r) => some r
      | _ => extractJsonLdRecipe post) with
    | some r => some r
    | none => extractHtmlRecipe doc) = _
  rw [hblock]

/-- Witness for C1 (amended) at a concrete single-block document. -/
theorem C1_amended_structured_extraction_witness :
    parseRecipe c1wDoc =
      some { title := .str "Pancakes",
             ingredients := [.str "2 eggs", .str "1 cup flour"],
             instructions := ["Mix well.", "Bake."] } := by
  have h := C1_amended_structured_extraction c1wDoc
    [] [] _ "Pancakes" [.str "2 eggs", .str "1 cup flour"]
    ["<p>Mix  well.</p>", "Bake."]
    rfl (by simp) rfl rfl rfl (by decide) rfl rfl
  rw [h]
  rfl

/-! ## Claim C1, counterexample -/

/-- Counterexample to claim C1 as stated: for the document whose Recipe block
has `name = "X"` and `recipeInstructions = ["", "Mix well"]`, the returned
instructions are `["Mix well"]` — the filter of line 140 drops the empty
string — and not the claimed image `["", "Mix well"]` of the whole list
under tag-stripping/whitespace-normalisation. -/
theorem C1_counterexample :
    parseRecipe c1cxDoc =
      some { title := .str "X", ingredients := [], instructions := ["Mix well"] } ∧
    ["", "Mix well"].map cleanString = ["", "Mix well"] ∧
    (["Mix well"] : List String) ≠ ["", "Mix well"] :=
  ⟨rfl, rfl, by decide⟩

/-! ## Claim C7, counterexample -/

/-- Claim C7 as amended (corrected): for the ingredient and instruction
fields the selector used is the first one in priority order that matches at
least one element, and all lower-priority selectors are then ignored; for
the *title* field the selector used is the first one whose first matching
element has non-empty trimmed text — a title selector that matches only a
blank element is skipped (this last proviso is what the frozen claim
omits). -/
theorem C7_amended_first_selector_wins (doc : Doc) :
    (∀ pre sel post, (∀ s ∈ pre, doc.select s = []) → doc.select sel ≠ [] →
        findList doc (pre ++ sel :: post) = (doc.select sel).map jsTrim) ∧
    (∀ pre sel post txt, (∀ s ∈ pre, titleMiss doc s) →
        (doc.select sel).head? = some txt → jsTrim txt ≠ "" →
        findTitle doc (pre ++ sel :: post) = jsTrim txt) := by
  constructor
  · intro pre sel post hpre hsel
    induction pre with
    | nil =>
      rw [List.nil_append]
      show (if 0 < (doc.select sel).length then (doc.select sel).map jsTrim
        else findList doc post) = (doc.select sel).map jsTrim
      rcases hl : doc.select sel with _ | ⟨a, l⟩
      · exact absurd hl hsel
      · simp [hl]
    | cons p pre ih =>
      rw [List.cons_append]
      show (if 0 < (doc.select p).length then (doc.select p).map jsTrim
        else findList doc (pre ++ sel :: post)) = (doc.select sel).map jsTrim
      rw [hpre p (List.mem_cons_self p pre)]
      exact ih fun s hs => hpre s (List.mem_cons_of_mem p hs)
  · intro pre sel post txt hpre hsel htxt
    induction pre with
    | nil =>
      rw [List.nil_append]
      show (match (doc.select sel).head? with
        | some t => if jsTrim t ≠ "" then jsTrim t else findTitle doc post
        | none => findTitle doc post) = jsTrim txt
      rw [hsel]
      simp [htxt]
    | cons p pre ih =>
      rw [List.cons_append]
      show (match (doc.select p).head? with
        | some t => if jsTrim t ≠ "" then jsTrim t else findTitle doc (pre ++ sel :: post)
        | none => findTitle doc (pre ++ sel :: post)) = jsTrim txt
      have ihx := ih fun s hs => hpre s (List.mem_cons_of_mem p hs)
      rcases hp : (doc.select p).head? with _ | ⟨t⟩
      · exact ihx
      · have hmiss := hpre p (List.mem_cons_self p pre) t hp
        simp [hmiss, ihx]

/-- Witness for C7 (amended): on `c7wDoc` the ingredient scan uses the first
selector that matches, `.ingredient`, and trims its matches. -/
theorem C7_amended_first_selector_wins_witness :
    findList c7wDoc ingredientSelectors = ["1 egg"] := by
  have h := (C7_amended_first_selector_wins c7wDoc).1
    ["[itemprop=\"recipeIngredient\"]"] ".ingredient"
    [".ingredients li", ".recipe-ingredients li", ".wprm-recipe-ingredient",
     ".tasty-recipes-ingredients li"]
    (by
      intro s hs
      simp only [List.mem_singleton] at hs
      subst hs
      rfl)
    (by decide)
  exact h.trans rfl

/-- Counterexample to claim C7 as stated: the first title selector in
priority order, `h1.recipe-title`, matches an element of `c7doc`, yet the
extracted title is `Cake`, the trimmed text of the *second* selector's
element — the loop of lines 169–175 skips a matching element whose trimmed
text is empty, so lower-priority selectors are not always ignored once a
selector matches. -/
theorem C7_counterexample :
    c7doc.select "h1.recipe-title" = ["   "] ∧
    jsTrim "   " = "" ∧
    extractHtmlRecipe c7doc =
      some { title := .str "Cake", ingredients := [.str "1 egg"], instructions := [] } ∧
    ("Cake" : String) ≠ jsTrim "   " :=
  ⟨rfl, rfl, rfl, by decide⟩

/-! ## Claim C8: sentence splitting -/

/-- Stepping the splitter through a boundary-free prefix up to an explicit
`". "` separator: the prefix becomes one fragment and the machine enters the
separator-whitespace state. -/
theorem split_boundary (l : List Char) (hnb : noBoundary l = true) :
    (∀ acc r, splitRun acc (l ++ '.' :: ' ' :: r) = (acc.reverse ++ l) :: splitWs r) ∧
    (startsWithWs l = false →
      ∀ acc r, splitDot acc (l ++ '.' :: ' ' :: r) = (acc.reverse ++ '.' :: l) :: splitWs r) := by
  induction l with
  | nil =>
    constructor
    · intro acc r
      show splitDot acc (' ' :: r) = (acc.reverse ++ []) :: splitWs r
      show acc.reverse :: splitWs r = (acc.reverse ++ []) :: splitWs r
      rw [List.append_nil]
    · intro _ acc r
      show (if jsWhitespace '.' = true then acc.reverse :: splitWs (' ' :: r)
        else if '.' = '.' then splitDot ('.' :: acc) (' ' :: r)
        else splitRun ('.' :: '.' :: acc) (' ' :: r)) = (acc.reverse ++ ['.']) :: splitWs r
      show splitDot ('.' :: acc) (' ' :: r) = (acc.reverse ++ ['.']) :: splitWs r
      show ('.' :: acc).reverse :: splitWs r = (acc.reverse ++ ['.']) :: splitWs r
      rw [List.reverse_cons]
  | cons c l ih =>
    simp only [noBoundary, Bool.and_eq_true, Bool.not_eq_true'] at hnb
    obtain ⟨⟨hcn, hdot⟩, hl⟩ := hnb
    have ihl := ih hl
    constructor
    · intro acc r
      rw [List.cons_append]
      show (if c = '.' then splitDot acc (l ++ '.' :: ' ' :: r)
        else if c = '\n' then acc.reverse :: splitNl (l ++ '.' :: ' ' :: r)
        else splitRun (c :: acc) (l ++ '.' :: ' ' :: r)) = (acc.reverse ++ c :: l) :: splitWs r
      by_cases hc : c = '.'
      · subst hc
        rw [if_pos rfl]
        have hsw : startsWithWs l = false := by simpa using hdot
        rw [ihl.2 hsw acc r]
      · rw [if_neg hc, if_neg (by simpa using hcn), ihl.1 (c :: acc) r, List.reverse_cons,
          List.append_assoc, List.singleton_append]
    · intro hws acc r
      have hcw : jsWhitespace c = false := by
        cases hw2 : jsWhitespace c
        · rfl
        · rw [show startsWithWs (c :: l) = jsWhitespace c from rfl, hw2] at hws
          cases hws
      rw [List.cons_append]
      show (if jsWhitespace c = true then acc.reverse :: splitWs (l ++ '.' :: ' ' :: r)
        else if c = '.' then splitDot ('.' :: acc) (l ++ '.' :: ' ' :: r)
        else splitRun (c :: '.' :: acc) (l ++ '.' :: ' ' :: r)) =
        (acc.reverse ++ '.' :: c :: l) :: splitWs r
      rw [hcw]
      show (if c = '.' then splitDot ('.' :: acc) (l ++ '.' :: ' ' :: r)
        else splitRun (c :: '.' :: acc) (l ++ '.' :: ' ' :: r)) =
        (acc.reverse ++ '.' :: c :: l) :: splitWs r
      by_cases hc : c = '.'
      · subst hc
        rw [if_pos rfl]
        have hsw : startsWithWs l = false := by simpa using hdot
        rw [ihl.2 hsw ('.' :: acc) r, List.reverse_cons, List.append_assoc,
          List.singleton_append]
      · rw [if_neg hc, ihl.1 (c :: '.' :: acc) r]
        simp

/-- After the separator whitespace ends at a non-whitespace character, the
machine behaves like a fresh fragment scan. -/
theorem splitWs_not_ws (m : List Char) (hws : startsWithWs m = false) :
    splitWs m = splitRun [] m := by
  cases m with
  | nil => rfl
  | cons c rest =>
    have hcw : jsWhitespace c = false := hws
    show (if jsWhitespace c = true then splitWs rest
      else if c = '.' then splitDot [] rest
      else if c = '\n' then [] :: splitNl rest
      else splitRun [c] rest) = _
    rw [hcw]
    show (if c = '.' then splitDot [] rest
      else if c = '\n' then [] :: splitNl rest
      else splitRun [c] rest) = _
    by_cases hc : c = '.'
    · subst hc
      rfl
    · rw [if_neg hc]
      by_cases hn : c = '\n'
      · subst hn
        rfl
      · rw [if_neg hn]
        show splitRun [c] rest =
          (if c = '.' then splitDot [] rest
            else if c = '\n' then List.reverse [] :: splitNl rest
            else splitRun (c :: []) rest)
        rw [if_neg hc, if_neg hn]

/-- A boundary-free remainder is swallowed whole as the final fragment. -/
theorem split_end (l : List Char) (hnb : noBoundary l = true) :
    (∀ acc, splitRun acc l = [acc.reverse ++ l]) ∧
    (startsWithWs l = false → ∀ acc, splitDot acc l = [acc.reverse ++ '.' :: l]) := by
  induction l with
  | nil =>
    constructor
    · intro acc
      show [acc.reverse] = [acc.reverse ++ []]
      rw [List.append_nil]
    · intro _ acc
      show [('.' :: acc).reverse] = [acc.reverse ++ ['.']]
      rw [List.reverse_cons]
  | cons c l ih =>
    simp only [noBoundary, Bool.and_eq_true, Bool.not_eq_true'] at hnb
    obtain ⟨⟨hcn, hdot⟩, hl⟩ := hnb
    have ihl := ih hl
    constructor
    · intro acc
      show (if c = '.' then splitDot acc l
        else if c = '\n' then acc.reverse :: splitNl l
        else splitRun (c :: acc) l) = [acc.reverse ++ c :: l]
      by_cases hc : c = '.'
      · subst hc
        rw [if_pos rfl]
        have hsw : startsWithWs l = false := by simpa using hdot
        rw [ihl.2 hsw acc]
      · rw [if_neg hc, if_neg (by simpa using hcn), ihl.1 (c :: acc), List.reverse_cons,
          List.append_assoc, List.singleton_append]
    · intro hws acc
      have hcw : jsWhitespace c = false := hws
      show (if jsWhitespace c = true then acc.reverse :: splitWs l
        else if c = '.' then splitDot ('.' :: acc) l
        else splitRun (c :: '.' :: acc) l) = [acc.reverse ++ '.' :: c :: l]
      rw [hcw]
      show (if c = '.' then splitDot ('.' :: acc) l
        else splitRun (c :: '.' :: acc) l) = [acc.reverse ++ '.' :: c :: l]
      by_cases hc : c = '.'
      · subst hc
        rw [if_pos rfl]
        have hsw : startsWithWs l = false := by simpa using hdot
        rw [ihl.2 hsw ('.' :: acc), List.reverse_cons, List.append_assoc,
          List.singleton_append]
      · rw [if_neg hc, ihl.1 (c :: '.' :: acc)]
        simp

/-- The characters of two sentences joined by the separator `". "`. -/
theorem data_append_sep (s₁ s₂ : String) :
    (s₁ ++ ". " ++ s₂).data = s₁.data ++ '.' :: ' ' :: s₂.data := by
  rw [String.data_append, String.data_append]
  show s₁.data ++ ['.', ' '] ++ s₂.data = _
  rw [List.append_assoc]
  rfl

/-- Two sentences joined by `". "` never form the empty string. -/
theorem append_sep_ne_empty (s₁ s₂ : String) : s₁ ++ ". " ++ s₂ ≠ "" := by
  intro h
  have hd := congrArg String.data h
  rw [data_append_sep] at hd
  simp at hd

/-- The split of two boundary-free sentences joined by `". "` (the second
not starting with whitespace) is exactly the two sentences. -/
theorem splitInstructions_two (s₁ s₂ : String)
    (h₁ : noBoundary s₁.data = true) (h₂ : noBoundary s₂.data = true)
    (hw : startsWithWs s₂.data = false) :
    splitInstructions (s₁ ++ ". " ++ s₂) = [s₁, s₂] := by
  unfold splitInstructions
  rw [data_append_sep, (split_boundary s₁.data h₁).1 [] s₂.data,
    splitWs_not_ws s₂.data hw, (split_end s₂.data h₂).1 []]
  rfl

/-- The head of a list untouched by `dropWhile` fails the predicate. -/
theorem head_false_of_dropWhile_eq_self {α : Type} (p : α → Bool) (c : α) (m : List α)
    (h : (c :: m).dropWhile p = c :: m) : p c = false := by
  cases hp : p c
  · rfl
  · rw [List.dropWhile_cons_of_pos hp] at h
    have hle := List.IsSuffix.length_le (List.dropWhile_suffix (l := m) p)
    have hlen := congrArg List.length h
    simp at hlen
    omega

/-- A trimmed character list has no leading whitespace left. -/
theorem dropWhile_trimChars (l : List Char) :
    (trimChars l).dropWhile jsWhitespace = trimChars l := by
  unfold trimChars
  obtain ⟨t, ht⟩ : (l.dropWhile jsWhitespace).reverse.dropWhile jsWhitespace <:+
      (l.dropWhile jsWhitespace).reverse := List.dropWhile_suffix _
  have hEq : (l.dropWhile jsWhitespace).rdropWhile jsWhitespace ++ t.reverse =
      l.dropWhile jsWhitespace := by
    have h2 := congrArg List.reverse ht
    simpa [List.reverse_append, List.rdropWhile] using h2
  cases hm : (l.dropWhile jsWhitespace).rdropWhile jsWhitespace with
  | nil => rfl
  | cons c m =>
    have hself : (l.dropWhile jsWhitespace).dropWhile jsWhitespace =
        l.dropWhile jsWhitespace := List.dropWhile_idempotent _ _
    rw [hm] at hEq
    rw [← hEq, List.cons_append] at hself
    have hc := head_false_of_dropWhile_eq_self jsWhitespace c (m ++ t.reverse) hself
    rw [List.dropWhile_cons_of_neg (by simp [hc])]

/-- Trimming is idempotent on character lists. -/
theorem trimChars_idem (l : List Char) : trimChars (trimChars l) = trimChars l := by
  show ((trimChars l).dropWhile jsWhitespace).rdropWhile jsWhitespace = trimChars l
  rw [dropWhile_trimChars]
  unfold trimChars
  exact List.rdropWhile_idempotent _ _

/-- JS `trim()` is idempotent. -/
theorem jsTrim_jsTrim (s : String) : jsTrim (jsTrim s) = jsTrim s := by
  show (⟨trimChars (trimChars s.data)⟩ : String) = ⟨trimChars s.data⟩
  rw [trimChars_idem]

/-- A string that trims to nothing is all whitespace. -/
theorem allWs_of_trimChars_nil (l : List Char) (h : trimChars l = []) :
    ∀ c ∈ l, jsWhitespace c = true := by
  intro c hc
  unfold trimChars at h
  have h2 := List.rdropWhile_eq_nil_iff.mp h
  have h3 : c ∈ l.takeWhile jsWhitespace ++ l.dropWhile jsWhitespace := by
    rw [List.takeWhile_append_dropWhile (p := jsWhitespace)]
    exact hc
  rcases List.mem_append.mp h3 with h4 | h4
  · exact List.mem_takeWhile_imp h4
  · exact h2 c h4

/-- Whitespace is never `<`. -/
theorem jsWhitespace_ne_lt (c : Char) (h : jsWhitespace c = true) : c ≠ '<' := by
  intro he
  subst he
  exact absurd h (by decide)

/-- Tag stripping is the identity on all-whitespace text. -/
theorem stripTagsGo_allWs (l : List Char) (h : ∀ c ∈ l, jsWhitespace c = true) :
    stripTagsGo l none = l := by
  induction l with
  | nil => rfl
  | cons c rest ih =>
    show (if c = '<' then stripTagsGo rest (some [c]) else c :: stripTagsGo rest none) =
      c :: rest
    rw [if_neg (jsWhitespace_ne_lt c (h c (List.mem_cons_self c rest))),
      ih fun x hx => h x (List.mem_cons_of_mem c hx)]

/-- Inside a whitespace run, all-whitespace input collapses to nothing. -/
theorem collapseWsGo_true_allWs (l : List Char) (h : ∀ c ∈ l, jsWhitespace c = true) :
    collapseWsGo true l = [] := by
  induction l with
  | nil => rfl
  | cons c rest ih =>
    show (if jsWhitespace c = true then collapseWsGo true rest
      else c :: collapseWsGo false rest) = []
    rw [if_pos (h c (List.mem_cons_self c rest))]
    exact ih fun x hx => h x (List.mem_cons_of_mem c hx)

/-- All-whitespace text collapses to at most one space. -/
theorem collapseWs_allWs (s : String) (h : ∀ c ∈ s.data, jsWhitespace c = true) :
    collapseWs s = "" ∨ collapseWs s = " " := by
  unfold collapseWs
  rcases hd : s.data with _ | ⟨c, rest⟩
  · left
    rfl
  · right
    rw [hd] at h
    show (⟨if jsWhitespace c = true then ' ' :: collapseWsGo true rest
      else c :: collapseWsGo false rest⟩ : String) = " "
    rw [if_pos (h c (List.mem_cons_self c rest)),
      collapseWsGo_true_allWs rest fun x hx => h x (List.mem_cons_of_mem c hx)]

/-- A string whose trim is empty also cleans to the empty string. -/
theorem cleanString_eq_empty_of_jsTrim (s : String) (h : jsTrim s = "") :
    cleanString s = "" := by
  have hnil : trimChars s.data = [] := by
    have hd := congrArg String.data h
    simpa [jsTrim] using hd
  have hall := allWs_of_trimChars_nil s.data hnil
  unfold cleanString
  have hst : stripTags s = s := by
    show (⟨stripTagsGo s.data none⟩ : String) = s
    rw [stripTagsGo_allWs s.data hall]
  rw [hst]
  rcases collapseWs_allWs s hall with hc | hc
  · rw [hc]
    rfl
  · rw [hc]
    rfl

/-- Claim C8 (confirmed): when `recipeInstructions` is a single string made
of two sentences separated by `". "` — each sentence free of further split
boundaries, with visible content after cleaning, and the second not starting
with whitespace — the Normalizer produces exactly two instruction entries,
each a non-empty string without leading or trailing whitespace. -/
theorem C8_single_string_two_sentences (fields : List (String × JsVal)) (s₁ s₂ : String)
    (hins : objLookup fields "recipeInstructions" = .str (s₁ ++ ". " ++ s₂))
    (h₁ : noBoundary s₁.data = true) (h₂ : noBoundary s₂.data = true)
    (hw : startsWithWs s₂.data = false)
    (hc₁ : cleanString s₁ ≠ "") (hc₂ : cleanString s₂ ≠ "") :
    ∃ r, normalizeRecipe (.obj fields) = .ok r ∧
      r.instructions = [cleanString s₁, cleanString s₂] ∧
      r.instructions.length = 2 ∧
      ∀ t ∈ r.instructions, t ≠ "" ∧ jsTrim t = t := by
  have ht₁ : jsTrim s₁ ≠ "" := fun h => hc₁ (cleanString_eq_empty_of_jsTrim s₁ h)
  have ht₂ : jsTrim s₂ ≠ "" := fun h => hc₂ (cleanString_eq_empty_of_jsTrim s₂ h)
  have hp₁ : decide (0 < (jsTrim s₁).length) = true := by
    rw [decide_eq_true_eq]
    exact (str_length_pos_iff _).mpr ht₁
  have hp₂ : decide (0 < (jsTrim s₂).length) = true := by
    rw [decide_eq_true_eq]
    exact (str_length_pos_iff _).mpr ht₂
  have hfil : [s₁, s₂].filter (fun t => decide (0 < (jsTrim t).length)) = [s₁, s₂] := by
    simp only [List.filter_cons, hp₁, hp₂, if_true, List.filter_nil]
  have htr : truthy (JsVal.str (s₁ ++ ". " ++ s₂)) = true := by
    simp [truthy, append_sep_ne_empty s₁ s₂]
  have hkey : ∃ r, normalizeRecipe (.obj fields) = .ok r ∧
      r.instructions = [cleanString s₁, cleanString s₂] := by
    have hgp : ∀ k, getProp (JsVal.obj fields) k = .ok (objLookup fields k) := fun _ => rfl
    unfold normalizeRecipe
    rw [hgp, hgp, hgp]
    dsimp only
    rw [hins, htr]
    simp only [eq_self_iff_true, if_true]
    rw [splitInstructions_two s₁ s₂ h₁ h₂ hw, hfil, mapExcept_clean_str]
    exact ⟨_, rfl, rfl⟩
  obtain ⟨r, hr, hri⟩ := hkey
  refine ⟨r, hr, hri, by rw [hri]; rfl, ?_⟩
  intro t ht
  rw [hri] at ht
  simp only [List.mem_cons, List.not_mem_nil, or_false] at ht
  rcases ht with rfl | rfl
  · refine ⟨hc₁, ?_⟩
    show jsTrim (jsTrim (collapseWs (stripTags s₁))) = jsTrim (collapseWs (stripTags s₁))
    exact jsTrim_jsTrim _
  · refine ⟨hc₂, ?_⟩
    show jsTrim (jsTrim (collapseWs (stripTags s₂))) = jsTrim (collapseWs (stripTags s₂))
    exact jsTrim_jsTrim _

/-- Witness for C8 at a concrete two-sentence instruction string. -/
theorem C8_single_string_two_sentences_witness :
    ∃ r, normalizeRecipe (.obj c8wData) = .ok r ∧
      r.instructions = [cleanString "Boil water", cleanString "Steep the leaves"] ∧
      r.instructions.length = 2 ∧
      ∀ t ∈ r.instructions, t ≠ "" ∧ jsTrim t = t :=
  C8_single_string_two_sentences c8wData "Boil water" "Steep the leaves"
    rfl (by decide) (by decide) (by decide) (by decide) (by decide)

end RecipeCard
